import Mathlib

/-!
Verification of the core of `mdbook-typst-math` (an mdbook preprocessor that
renders math/code fragments via Typst and splices the rendered SVG back into
the document text).

The development shallowly embeds the two Rust source files that carry the
logic:

* `src/lib.rs` — `TypstProcessor::convert_typst`: a single scan over
  byte-span-tagged markdown events collecting fragments, followed by a
  reverse-document-order splice of rendered artifacts into the document text.
* `src/compiler.rs` — `Compiler::package` (package cache),
  `Compiler::get_file` / `Compiler::get_source` (read-through file cache),
  `WrapSource::lookup` and `print_diagnostics` (diagnostics plumbing).

External collaborators (the network, gzip/tar, the filesystem, the Typst
engine itself, the diagnostic string formatter) appear as explicit oracle
parameters; all state (the file cache, the set of on-disk package
directories) is passed explicitly.  Byte buffers are `List Nat`, documents
are `List Char`.
-/

namespace MdTypst

/-! ## The splice primitive (`src/lib.rs`, lines 365-401)

Each loop iteration of `convert_typst` rebuilds the working document as
`content[0..span.start] ++ wrapped artifact ++ content[span.end..]`.
-/

/-- One splice step: replace the half-open byte range `[s, e)` of `c` by `r`.
Mirrors `format!("{}{}{}", &content[0..span.start], wrapped, &content[span.end..])`. -/
def replaceSpan (c : List α) (s e : Nat) (r : List α) : List α :=
  c.take s ++ r ++ c.drop e

/-- A pending replacement: half-open span in the *original* document plus the
replacement text. -/
structure Repl (α : Type) where
  start : Nat
  stop : Nat
  repl : List α
deriving DecidableEq

/-- The whole splice loop: `for b in blocks.iter().rev() { content = replace }`.
`foldr` applies the *last* list element first, exactly like iterating the
block list in reverse. -/
def spliceAll (c : List α) (bs : List (Repl α)) : List α :=
  bs.foldr (fun b acc => replaceSpan acc b.start b.stop b.repl) c

/-- Sortedness/bounds of a replacement list: starting at offset `p` in a
document of length `n`, the spans are pairwise non-overlapping and ordered
(`p ≤ start ≤ stop ≤ n`, and the next block starts at or after `stop`). -/
def wellSpanned (p n : Nat) : List (Repl α) → Bool
  | [] => true
  | b :: bs => decide (p ≤ b.start) && decide (b.start ≤ b.stop) && decide (b.stop ≤ n)
      && wellSpanned b.stop n bs

/-- Specification-side splice, following the spec's words: walking the block
list left to right, the text of every gap (before the first span, strictly
between consecutive spans, after the last span) is copied *byte-identically*
from the original document `c`, and only the spans themselves are replaced. -/
def specSplice (c : List α) (p : Nat) : List (Repl α) → List α
  | [] => c.drop p
  | b :: bs => (c.take b.start).drop p ++ b.repl ++ specSplice c b.stop bs

theorem wellSpanned_mono {bs : List (Repl α)} (h : wellSpanned p n bs = true)
    (hq : q ≤ p) : wellSpanned q n bs = true := by
  cases bs with
  | nil => rfl
  | cons b bs =>
    simp only [wellSpanned, Bool.and_eq_true, decide_eq_true_eq] at h ⊢
    exact ⟨⟨⟨le_trans hq h.1.1.1, h.1.1.2⟩, h.1.2⟩, h.2⟩

/-- The first block's start (or `n` for the empty list): every byte index
below this bound lies in the leading gap. -/
def firstStart (n : Nat) : List (Repl α) → Nat
  | [] => n
  | b :: _ => b.start

theorem specSplice_take {c : List α} {bs : List (Repl α)}
    (h : wellSpanned 0 c.length bs = true) (hq : q ≤ firstStart c.length bs) :
    (specSplice c 0 bs).take q = c.take q := by
  cases bs with
  | nil => simp [specSplice]
  | cons b bs =>
    simp only [wellSpanned, Bool.and_eq_true, decide_eq_true_eq] at h
    have hb : b.start ≤ c.length := le_trans h.1.1.2 h.1.2
    have hq' : q ≤ (c.take b.start).length := by
      simp only [List.length_take]
      exact le_min (hq : q ≤ b.start) (le_trans hq hb)
    simp only [specSplice, List.drop_zero, List.append_assoc]
    rw [List.take_append_of_le_length hq', List.take_take]
    congr 1
    exact Nat.min_eq_left hq

theorem specSplice_drop {c : List α} {bs : List (Repl α)}
    (h : wellSpanned 0 c.length bs = true) (he : e ≤ firstStart c.length bs) :
    (specSplice c 0 bs).drop e = specSplice c e bs := by
  cases bs with
  | nil => simp [specSplice]
  | cons b bs =>
    simp only [wellSpanned, Bool.and_eq_true, decide_eq_true_eq] at h
    have hb : b.start ≤ c.length := le_trans h.1.1.2 h.1.2
    have he' : e ≤ (c.take b.start).length := by
      simp only [List.length_take]
      exact le_min (he : e ≤ b.start) (le_trans he hb)
    simp only [specSplice, List.drop_zero, List.append_assoc]
    rw [List.drop_append_of_le_length he']

theorem wellSpanned_firstStart {b : Repl α} {bs : List (Repl α)}
    (h : wellSpanned b.stop n bs = true) (hstop : b.stop ≤ n) :
    b.stop ≤ firstStart n bs := by
  cases bs with
  | nil => exact hstop
  | cons b' bs =>
    simp only [wellSpanned, Bool.and_eq_true, decide_eq_true_eq] at h
    exact h.1.1.1

theorem wellSpanned_stop_le {b : Repl α} {bs : List (Repl α)}
    (h : wellSpanned 0 n (b :: bs) = true) : b.stop ≤ n := by
  simp only [wellSpanned, Bool.and_eq_true, decide_eq_true_eq] at h
  exact h.1.2

/-- Core splice correctness: processing blocks in reverse document order over
a sorted, non-overlapping replacement list produces exactly the
specification-side output, whose gap segments are copied from the original. -/
theorem spliceAll_eq_specSplice (c : List α) (bs : List (Repl α))
    (h : wellSpanned 0 c.length bs = true) :
    spliceAll c bs = specSplice c 0 bs := by
  induction bs with
  | nil => simp [spliceAll, specSplice]
  | cons b bs ih =>
    have h' := h
    simp only [wellSpanned, Bool.and_eq_true, decide_eq_true_eq] at h'
    have htail0 : wellSpanned 0 c.length bs = true :=
      wellSpanned_mono h'.2 (Nat.zero_le _)
    have hfs : b.stop ≤ firstStart c.length bs := wellSpanned_firstStart h'.2 h'.1.2
    have hstep : spliceAll c (b :: bs)
        = replaceSpan (spliceAll c bs) b.start b.stop b.repl := rfl
    rw [hstep, ih htail0]
    unfold replaceSpan
    rw [specSplice_take htail0 (le_trans h'.1.1.2 hfs),
        specSplice_drop htail0 hfs]
    simp [specSplice]

/-! ## Markdown event scan (`src/lib.rs`, lines 286-363)

`convert_typst` iterates `parser.into_offset_iter()`: a stream of
pulldown-cmark events, each tagged with its byte span in the original
document.  The loop collects `typst_blocks`: one entry per fragment, holding
the span, the full source to compile, the inline flag and the preamble line
count.  The tokenizer itself is external; its event stream is the input here.
-/

/-- A half-open byte span in the original document (`std::ops::Range<usize>`). -/
structure Sp where
  start : Nat
  stop : Nat
deriving DecidableEq

/-- `pulldown_cmark::CodeBlockKind`. -/
inductive CodeBlockKind where
  | fenced (lang : String)
  | indented
deriving DecidableEq

/-- The pulldown-cmark events `convert_typst` distinguishes; every other
event falls into `other` (the `_ => {}` arm). -/
inductive MdEvent where
  | inlineMath (content : String)
  | displayMath (content : String)
  | startCodeBlock (kind : CodeBlockKind)
  | text (content : String)
  | endCodeBlock
  | other
deriving DecidableEq

/-- `ColorMode` from `src/lib.rs`. -/
inductive ColorMode where
  | auto
  | static
deriving DecidableEq

/-- The fields of `TypstProcessorOptions` that `convert_typst` reads. -/
structure TypstProcessorOptions where
  preamble : String
  inline_preamble : Option String
  display_preamble : Option String
  color_mode : ColorMode
  code_tag : String
  enable_math : Bool
  enable_code : Bool

/-- The options `Preprocessor::run` builds when no configuration is given
(`src/lib.rs`, lines 179-191). -/
def defaultOptions : TypstProcessorOptions where
  preamble := "#set page(width: auto, height: auto, margin: 0.5em, fill: none)"
  inline_preamble := none
  display_preamble := none
  color_mode := ColorMode.auto
  code_tag := "typst,render"
  enable_math := true
  enable_code := true

/-- Rust `str::lines().count()`: number of `\n`-separated segments, with a
trailing newline not opening a further line and the empty string having no
lines. -/
def rustLinesCount (s : String) : Nat :=
  (s.splitOn "\n").length - (if s.endsWith "\n" ∨ s.isEmpty then 1 else 0)

/-- Rust `str::trim`: remove leading and trailing whitespace, keeping all
interior characters.  (Rust trims any Unicode `White_Space` character; the
documents here are modelled over the ASCII whitespace subset.) -/
def rustTrim (s : String) : String :=
  ⟨((s.data.dropWhile Char.isWhitespace).reverse.dropWhile Char.isWhitespace).reverse⟩

/-- One collected fragment: an entry of the `typst_blocks` vector
`(Range<usize>, String, bool, usize)`. -/
structure Frag where
  span : Sp
  body : String
  inline : Bool
  preambleLines : Nat
deriving DecidableEq

/-- The loop-carried scanner state of `convert_typst`. -/
structure ScanState where
  inTypst : Bool
  codeBlockStart : Option Sp
  codeBlockContent : String
  blocks : List Frag
deriving DecidableEq

/-- The state in which the scan starts. -/
def initScan : ScanState := ⟨false, none, "", []⟩

/-- One iteration of the event loop of `convert_typst` (lines 315-363),
translated arm by arm; a guard that fails falls through to the `_ => {}`
arm, leaving the state unchanged. -/
def scanStep (opts : TypstProcessorOptions) (st : ScanState) : MdEvent × Sp → ScanState
  | (MdEvent.inlineMath c, sp) =>
    if opts.enable_math then
      let preamble := opts.inline_preamble.getD opts.preamble
      { st with blocks := st.blocks
          ++ [⟨sp, preamble ++ "\n$" ++ c ++ "$", true, rustLinesCount preamble⟩] }
    else st
  | (MdEvent.displayMath c, sp) =>
    if opts.enable_math then
      let c := rustTrim c
      let preamble := opts.display_preamble.getD opts.preamble
      { st with blocks := st.blocks
          ++ [⟨sp, preamble ++ "\n$ " ++ c ++ " $", false, rustLinesCount preamble⟩] }
    else st
  | (MdEvent.startCodeBlock (CodeBlockKind.fenced lang), sp) =>
    if opts.enable_code then
      if lang = opts.code_tag then
        { st with inTypst := true, codeBlockStart := some sp, codeBlockContent := "" }
      else st
    else st
  | (MdEvent.text t, _) =>
    if st.inTypst && opts.enable_code then
      { st with codeBlockContent := st.codeBlockContent ++ t }
    else st
  | (MdEvent.endCodeBlock, sp) =>
    if st.inTypst && opts.enable_code then
      let st' :=
        match st.codeBlockStart with
        | some startSp =>
          let preamble := opts.display_preamble.getD opts.preamble
          { st with
              blocks := st.blocks
                ++ [(⟨⟨startSp.start, sp.stop⟩,
                      preamble ++ "\n" ++ rustTrim st.codeBlockContent, false,
                      rustLinesCount preamble⟩ : Frag)],
              codeBlockStart := none }
        | none => st
      { st' with inTypst := false, codeBlockContent := "" }
    else st
  | (_, _) => st

/-- The full scan: the fragments `convert_typst` collects from an event
stream. -/
def scanEvents (opts : TypstProcessorOptions) (events : List (MdEvent × Sp)) : List Frag :=
  (events.foldl (scanStep opts) initScan).blocks

/-- Concatenation of the text chunks a code block delivers
(`code_block_content.push_str(&text)` accumulation). -/
def strConcat : List String → String
  | [] => ""
  | s :: l => s ++ strConcat l

theorem scan_texts_acc (opts : TypstProcessorOptions) (h_code : opts.enable_code = true)
    (texts : List (String × Sp)) :
    ∀ st : ScanState, st.inTypst = true →
    List.foldl (scanStep opts) st (texts.map (fun p => (MdEvent.text p.1, p.2)))
      = { st with codeBlockContent := st.codeBlockContent ++ strConcat (texts.map Prod.fst) } := by
  induction texts with
  | nil => intro st _; simp [strConcat, String.append_empty]
  | cons p rest ih =>
    intro st hst
    simp only [List.map_cons, List.foldl_cons, scanStep, hst, h_code, Bool.and_self, if_true]
    rw [ih _ (by simp [hst])]
    simp [strConcat, String.append_assoc]

theorem scan_texts_skip (opts : TypstProcessorOptions) (texts : List (String × Sp)) :
    ∀ st : ScanState, st.inTypst = false →
    List.foldl (scanStep opts) st (texts.map (fun p => (MdEvent.text p.1, p.2))) = st := by
  induction texts with
  | nil => intro st _; rfl
  | cons p rest ih =>
    intro st hst
    simp only [List.map_cons, List.foldl_cons, scanStep, hst, Bool.false_and, if_false]
    exact ih st hst

/-- C3 (amended): with code rendering enabled, a fenced block whose language
tag differs from the configured `code_tag` never produces a fragment, and a
block tagged exactly `code_tag` produces exactly one display fragment whose
span runs fence to fence and whose body is the accumulated block text with
leading and trailing whitespace **trimmed** (internal whitespace preserved),
concatenated after the display preamble and a newline. -/
theorem code_block_fragments (opts : TypstProcessorOptions)
    (h_code : opts.enable_code = true) (lang : String) (sp1 sp2 : Sp)
    (texts : List (String × Sp)) :
    scanEvents opts ((MdEvent.startCodeBlock (CodeBlockKind.fenced lang), sp1)
        :: texts.map (fun p => (MdEvent.text p.1, p.2)) ++ [(MdEvent.endCodeBlock, sp2)])
      = if lang = opts.code_tag
        then [⟨⟨sp1.start, sp2.stop⟩,
               (opts.display_preamble.getD opts.preamble) ++ "\n"
                 ++ rustTrim (strConcat (texts.map Prod.fst)), false,
               rustLinesCount (opts.display_preamble.getD opts.preamble)⟩]
        else [] := by
  unfold scanEvents
  rw [List.cons_append, List.foldl_cons, List.foldl_append]
  by_cases hlang : lang = opts.code_tag
  · simp only [hlang, if_true]
    have h1 : scanStep opts initScan
        (MdEvent.startCodeBlock (CodeBlockKind.fenced opts.code_tag), sp1)
        = ⟨true, some sp1, "", []⟩ := by
      simp [scanStep, initScan, h_code]
    rw [h1, scan_texts_acc opts h_code texts _ rfl]
    simp [scanStep, h_code, String.empty_append]
  · simp only [hlang, if_false]
    have h1 : scanStep opts initScan
        (MdEvent.startCodeBlock (CodeBlockKind.fenced lang), sp1) = initScan := by
      simp [scanStep, initScan, h_code, hlang]
    rw [h1, scan_texts_skip opts texts initScan rfl]
    simp [scanStep, initScan]

/-- C3 witness: a concrete matching-tag block with text `"a"`, and a concrete
block tagged `rust`, behave as `code_block_fragments` states. -/
theorem code_block_fragments_witness :
    (scanEvents defaultOptions ((MdEvent.startCodeBlock (CodeBlockKind.fenced "typst,render"), ⟨0, 20⟩)
        :: [(("a" : String), (⟨3, 4⟩ : Sp))].map (fun p => (MdEvent.text p.1, p.2))
        ++ [(MdEvent.endCodeBlock, ⟨0, 20⟩)])
      = if ("typst,render" : String) = defaultOptions.code_tag
        then [⟨⟨0, 20⟩,
               (defaultOptions.display_preamble.getD defaultOptions.preamble) ++ "\n"
                 ++ rustTrim (strConcat (["a"] : List String)), false,
               rustLinesCount (defaultOptions.display_preamble.getD defaultOptions.preamble)⟩]
        else [])
    ∧ (scanEvents defaultOptions ((MdEvent.startCodeBlock (CodeBlockKind.fenced "rust"), ⟨0, 20⟩)
        :: [(("a" : String), (⟨3, 4⟩ : Sp))].map (fun p => (MdEvent.text p.1, p.2))
        ++ [(MdEvent.endCodeBlock, ⟨0, 20⟩)])
      = if ("rust" : String) = defaultOptions.code_tag
        then [⟨⟨0, 20⟩,
               (defaultOptions.display_preamble.getD defaultOptions.preamble) ++ "\n"
                 ++ rustTrim (strConcat (["a"] : List String)), false,
               rustLinesCount (defaultOptions.display_preamble.getD defaultOptions.preamble)⟩]
        else []) :=
  ⟨code_block_fragments defaultOptions rfl "typst,render" ⟨0, 20⟩ ⟨0, 20⟩ [("a", ⟨3, 4⟩)],
   code_block_fragments defaultOptions rfl "rust" ⟨0, 20⟩ ⟨0, 20⟩ [("a", ⟨3, 4⟩)]⟩

/-- C3 counterexample: the claim as stated (body is the *full accumulated
text* after the preamble) is false: for accumulated text `"x\n"` the code
trims it to `"x"` before concatenation. -/
theorem code_block_full_text_counterexample :
    scanEvents ⟨"P", none, none, ColorMode.auto, "typst,render", true, true⟩
        [(MdEvent.startCodeBlock (CodeBlockKind.fenced "typst,render"), ⟨0, 20⟩),
         (MdEvent.text "x\n", ⟨4, 6⟩), (MdEvent.endCodeBlock, ⟨0, 20⟩)]
      ≠ [⟨⟨0, 20⟩, "P" ++ "\n" ++ "x\n", false, 1⟩] := by decide

/-- C8: with math rendering enabled, the event stream of the document `$x$`
(one inline-math event) yields exactly one inline fragment whose body is the
inline preamble, a newline, and `$x$`; the stream of `$$x$$` (one
display-math event) yields exactly one display fragment whose body is the
display preamble, a newline, and the trimmed math text set in `$ … $`. -/
theorem math_fragments (opts : TypstProcessorOptions)
    (h_math : opts.enable_math = true) (sp sp' : Sp) :
    scanEvents opts [(MdEvent.inlineMath "x", sp)]
      = [⟨sp, (opts.inline_preamble.getD opts.preamble) ++ "\n$x$", true,
           rustLinesCount (opts.inline_preamble.getD opts.preamble)⟩]
    ∧ scanEvents opts [(MdEvent.displayMath "x", sp')]
      = [⟨sp', (opts.display_preamble.getD opts.preamble) ++ "\n$ x $", false,
           rustLinesCount (opts.display_preamble.getD opts.preamble)⟩] := by
  have hx : rustTrim "x" = "x" := by decide
  have e1 : ∀ p : String, p ++ "\n$" ++ "x" ++ "$" = p ++ "\n$x$" := by
    intro p
    rw [String.append_assoc, String.append_assoc]
    congr 1
  have e2 : ∀ p : String, p ++ "\n$ " ++ "x" ++ " $" = p ++ "\n$ x $" := by
    intro p
    rw [String.append_assoc, String.append_assoc]
    congr 1
  constructor
  · simp only [scanEvents, List.foldl_cons, List.foldl_nil, scanStep, initScan, h_math, if_true]
    simp [e1]
  · simp only [scanEvents, List.foldl_cons, List.foldl_nil, scanStep, initScan, h_math, if_true]
    simp [hx, e2]

/-- C8 witness: `math_fragments` at the default options and concrete spans. -/
theorem math_fragments_witness :
    scanEvents defaultOptions [(MdEvent.inlineMath "x", ⟨0, 3⟩)]
      = [⟨⟨0, 3⟩, (defaultOptions.inline_preamble.getD defaultOptions.preamble) ++ "\n$x$", true,
           rustLinesCount (defaultOptions.inline_preamble.getD defaultOptions.preamble)⟩]
    ∧ scanEvents defaultOptions [(MdEvent.displayMath "x", ⟨0, 6⟩)]
      = [⟨⟨0, 6⟩, (defaultOptions.display_preamble.getD defaultOptions.preamble) ++ "\n$ x $", false,
           rustLinesCount (defaultOptions.display_preamble.getD defaultOptions.preamble)⟩] :=
  math_fragments defaultOptions rfl ⟨0, 3⟩ ⟨0, 6⟩

/-! ## The rewrite loop (`src/lib.rs`, lines 365-403)

`convert_typst` walks `typst_blocks.iter().rev()` over the working document:
for each fragment it renders the fragment source through the compiler (an
oracle here), applies the color-mode fix-up, wraps the SVG in the
kind-appropriate container, and splices it over the fragment's span.  The
first render failure aborts the whole document with an error carrying the
chapter/file name.
-/

/-- The container the rendered SVG is wrapped in: inline fragments get a
`<span class="typst-inline">`, display fragments a `<div class="typst-display">`. -/
def wrapArtifact (inline : Bool) (svg : String) : String :=
  if inline then "<span class=\"typst-inline\">" ++ svg ++ "</span>"
  else "<div class=\"typst-display\">" ++ svg ++ "</div>"

/-- The `ColorMode::Auto` post-processing: rewrite the literal solid-black
fill/stroke attributes to `currentColor`; `Static` leaves the SVG alone. -/
def colorFix (mode : ColorMode) (svg : String) : String :=
  match mode with
  | ColorMode.auto =>
      (svg.replace "fill=\"#000000\"" "fill=\"currentColor\"").replace
        "stroke=\"#000000\"" "stroke=\"currentColor\""
  | ColorMode.static => svg

/-- The error `convert_typst` maps a compile failure to:
`anyhow!("Failed to render math in chapter '{}': {}", filename, e)`. -/
def renderFailMsg (filename e : String) : String :=
  "Failed to render math in chapter '" ++ filename ++ "': " ++ e

/-- The splice loop over collected fragments.  The recursion processes the
tail (the fragments *later* in the document) first, exactly like the Rust
`for … in typst_blocks.iter().rev()` loop; the render oracle stands for
`compiler.render` (whose extra filename/line arguments only shape
diagnostics). -/
def spliceRender (render : String → Except String String) (filename : String)
    (mode : ColorMode) (content : List Char) : List Frag → Except String (List Char)
  | [] => Except.ok content
  | b :: bs =>
    match spliceRender render filename mode content bs with
    | Except.error e => Except.error e
    | Except.ok c =>
      match render b.body with
      | Except.error e => Except.error (renderFailMsg filename e)
      | Except.ok svg =>
        Except.ok (replaceSpan c b.span.start b.span.stop
          (wrapArtifact b.inline (colorFix mode svg)).data)

/-- `TypstProcessor::convert_typst`: scan the event stream, then splice the
rendered fragments back in reverse order. -/
def convert_typst (render : String → Except String String) (filename : String)
    (opts : TypstProcessorOptions) (content : List Char)
    (events : List (MdEvent × Sp)) : Except String (List Char) :=
  spliceRender render filename opts.color_mode content (scanEvents opts events)

theorem spliceRender_error_cons (render : String → Except String String)
    (filename : String) (mode : ColorMode) (content : List Char) (b : Frag)
    (bs : List Frag) (e : String)
    (h : spliceRender render filename mode content bs = Except.error e) :
    spliceRender render filename mode content (b :: bs) = Except.error e := by
  simp only [spliceRender, h]

theorem spliceRender_ok_of_all_ok (render : String → Except String String)
    (filename : String) (mode : ColorMode) (content : List Char)
    (bs : List Frag) (h : ∀ b ∈ bs, ∃ s, render b.body = Except.ok s) :
    ∃ c, spliceRender render filename mode content bs = Except.ok c := by
  induction bs with
  | nil => exact ⟨content, rfl⟩
  | cons b bs ih =>
    obtain ⟨c, hc⟩ := ih (fun x hx => h x (List.mem_cons_of_mem _ hx))
    obtain ⟨s, hs⟩ := h b (List.mem_cons_self _ _)
    refine ⟨replaceSpan c b.span.start b.span.stop
      (wrapArtifact b.inline (colorFix mode s)).data, ?_⟩
    simp only [spliceRender, hc, hs]

/-- C7: the first fragment that fails to render — first in processing order,
i.e. every fragment after it in the list (processed before it) renders fine —
aborts the whole document: `convert_typst`-style splicing returns an error
built from the chapter/file name and that fragment's error, and no
(partially rewritten) document text is returned. -/
theorem first_render_failure_aborts (render : String → Except String String)
    (filename : String) (mode : ColorMode) (content : List Char)
    (pre post : List Frag) (b : Frag) (e : String)
    (hfail : render b.body = Except.error e)
    (hpost : ∀ x ∈ post, ∃ s, render x.body = Except.ok s) :
    spliceRender render filename mode content (pre ++ b :: post)
      = Except.error (renderFailMsg filename e) := by
  induction pre with
  | nil =>
    obtain ⟨c, hc⟩ := spliceRender_ok_of_all_ok render filename mode content post hpost
    simp only [List.nil_append, spliceRender, hc, hfail]
  | cons x pre ih =>
    exact spliceRender_error_cons render filename mode content x _ _ ih

/-- C7 witness: one succeeding and one failing fragment; the failing one
aborts with the located message. -/
theorem first_render_failure_aborts_witness :
    spliceRender
        (fun src => if src = "bad" then Except.error "boom" else Except.ok "svg")
        "ch one.md" ColorMode.static "text".data
        ([⟨⟨0, 1⟩, "good", true, 1⟩] ++ (⟨⟨2, 3⟩, "bad", false, 1⟩ : Frag)
          :: [⟨⟨3, 4⟩, "fine", true, 1⟩])
      = Except.error (renderFailMsg "ch one.md" "boom") :=
  first_render_failure_aborts _ "ch one.md" ColorMode.static "text".data
    [⟨⟨0, 1⟩, "good", true, 1⟩] [⟨⟨3, 4⟩, "fine", true, 1⟩] ⟨⟨2, 3⟩, "bad", false, 1⟩
    "boom" rfl
    (by
      intro x hx
      refine ⟨"svg", ?_⟩
      have hxe : x = (⟨⟨3, 4⟩, "fine", true, 1⟩ : Frag) := by
        simpa using hx
      subst hxe
      rfl)

/-- The pending replacement a fragment turns into once its SVG is known:
its span plus the wrapped, color-fixed artifact text. -/
def toRepl (mode : ColorMode) (svgOf : Frag → String) (b : Frag) : Repl Char :=
  ⟨b.span.start, b.span.stop, (wrapArtifact b.inline (colorFix mode (svgOf b))).data⟩

theorem spliceRender_eq_spliceAll (render : String → Except String String)
    (svgOf : Frag → String) (filename : String) (mode : ColorMode)
    (content : List Char) (blocks : List Frag)
    (hren : ∀ b ∈ blocks, render b.body = Except.ok (svgOf b)) :
    spliceRender render filename mode content blocks
      = Except.ok (spliceAll content (blocks.map (toRepl mode svgOf))) := by
  induction blocks with
  | nil => rfl
  | cons b bs ih =>
    have hb := hren b (List.mem_cons_self _ _)
    have htl := ih (fun x hx => hren x (List.mem_cons_of_mem _ hx))
    simp only [spliceRender, htl, hb, List.map_cons]
    rfl

/-- C1: when every fragment renders, splicing the rendered artifacts in
reverse span order (as `convert_typst` does) over non-overlapping, ordered
spans produces exactly the specification-side result `specSplice`, in which
every byte of original text outside the fragment spans — before the first
span, strictly between consecutive spans, and after the last — is copied
unchanged from the original document, whatever the artifact lengths are. -/
theorem reverse_splice_preserves_outside_text
    (render : String → Except String String) (svgOf : Frag → String)
    (filename : String) (mode : ColorMode) (content : List Char)
    (blocks : List Frag)
    (hren : ∀ b ∈ blocks, render b.body = Except.ok (svgOf b))
    (hws : wellSpanned 0 content.length (blocks.map (toRepl mode svgOf)) = true) :
    spliceRender render filename mode content blocks
      = Except.ok (specSplice content 0 (blocks.map (toRepl mode svgOf))) := by
  rw [spliceRender_eq_spliceAll render svgOf filename mode content blocks hren]
  exact congrArg Except.ok (spliceAll_eq_specSplice content _ hws)

/-- C1 witness: two fragments over `"abcdef"`; the splice succeeds and equals
the gap-preserving specification splice. -/
theorem reverse_splice_preserves_outside_text_witness :
    spliceRender (fun _ => Except.ok "S") "ch" ColorMode.static "abcdef".data
        [⟨⟨1, 2⟩, "b1", true, 0⟩, ⟨⟨4, 5⟩, "b2", false, 0⟩]
      = Except.ok (specSplice "abcdef".data 0
          ([⟨⟨1, 2⟩, "b1", true, 0⟩, ⟨⟨4, 5⟩, "b2", false, 0⟩].map
            (toRepl ColorMode.static (fun _ => "S")))) :=
  reverse_splice_preserves_outside_text (fun _ => Except.ok "S") (fun _ => "S")
    "ch" ColorMode.static "abcdef".data
    [⟨⟨1, 2⟩, "b1", true, 0⟩, ⟨⟨4, 5⟩, "b2", false, 0⟩]
    (fun _ _ => rfl) (by decide)

/-! ## Package cache (`src/compiler.rs`, lines 121-191)

`Compiler::package` resolves `{namespace, name, version}` to
`cache/namespace/name/version`, returning immediately when that directory
exists and otherwise downloading, gunzipping and untarring the archive.  The
network, the gzip decoder (three fallible steps in the source —
`write_all`, `try_finish`, `finish` — all yielding the same
`MalformedArchive` message), the tar unpacker and the directory removal
(`std::fs::remove_dir_all`, whose failure the unpack error handler
discards with `.ok()`) are oracles; the filesystem state is the set of
existing package directories plus a ghost counter of download attempts.
-/

/-- `typst` `PackageSpec`: namespace, name, version (the Rust field
`namespace` is a Lean keyword, hence `nspace`). -/
structure PkgSpec where
  nspace : String
  name : String
  version : String
deriving DecidableEq

/-- The two `PackageError` variants `Compiler::package` produces. -/
inductive PackageError where
  | networkFailed (msg : String)
  | malformedArchive (msg : String)
deriving DecidableEq

/-- External collaborators of `Compiler::package`. -/
structure PkgWorld where
  /-- `reqwest::blocking::get` + `copy_to`: URL to raw compressed bytes. -/
  download : String → Except String (List Nat)
  /-- the `flate2` gzip decoding pipeline. -/
  gunzip : List Nat → Except String (List Nat)
  /-- `tar::Archive::unpack` (the files land in the target directory). -/
  untar : List Nat → Except String Unit
  /-- `std::fs::remove_dir_all`: fallible, and the unpack error handler
  discards its result with `.ok()`. -/
  removeDir : String → Except String Unit

/-- Filesystem state seen by the package cache: which directories exist, and
a ghost counter of network fetch attempts. -/
structure FsState where
  dirs : List String
  fetches : Nat
deriving DecidableEq

/-- `self.cache.join(format!("{}/{}/{}", namespace, name, version))`. -/
def packagePath (cache : String) (p : PkgSpec) : String :=
  cache ++ "/" ++ p.nspace ++ "/" ++ p.name ++ "/" ++ p.version

/-- The registry URL
`https://packages.typst.org/{namespace}/{name}-{version}.tar.gz`. -/
def packageUrl (p : PkgSpec) : String :=
  "https://packages.typst.org/" ++ p.nspace ++ "/" ++ p.name ++ "-" ++ p.version ++ ".tar.gz"

/-- `Compiler::package`: fast path when the directory exists; otherwise
download (counting the attempt), decompress, unpack.  On an unpack failure
the error handler runs `std::fs::remove_dir_all(&path).ok()`: removal is
*attempted* and its own failure discarded, so the partially created
directory disappears when the removal succeeds but survives when it
fails. -/
def Compiler.package (w : PkgWorld) (cache : String) (st : FsState) (p : PkgSpec) :
    Except PackageError String × FsState :=
  let path := packagePath cache p
  if path ∈ st.dirs then (Except.ok path, st)
  else
    let st := { st with fetches := st.fetches + 1 }
    match w.download (packageUrl p) with
    | Except.error e =>
      (Except.error (PackageError.networkFailed
        ("Failed to download package " ++ p.name ++ ": " ++ e)), st)
    | Except.ok compressed =>
      match w.gunzip compressed with
      | Except.error e =>
        (Except.error (PackageError.malformedArchive
          ("Failed to decompress package " ++ p.name ++ ": " ++ e)), st)
      | Except.ok decompressed =>
        match w.untar decompressed with
        | Except.error e =>
          (Except.error (PackageError.malformedArchive
            ("Failed to unpack package " ++ p.name ++ ": " ++ e)),
           { st with dirs :=
              match w.removeDir path with
              | Except.ok _ => (path :: st.dirs).filter (fun d => d ≠ path)
              | Except.error _ => path :: st.dirs })
        | Except.ok _ => (Except.ok path, { st with dirs := path :: st.dirs })

theorem package_snd_fetches_of_not_mem (w : PkgWorld) (cache : String)
    (st : FsState) (p : PkgSpec) (h : packagePath cache p ∉ st.dirs) :
    (Compiler.package w cache st p).2.fetches = st.fetches + 1 := by
  unfold Compiler.package
  simp only [if_neg h]
  split
  · rfl
  · split
    · rfl
    · split
      · rfl
      · rfl

/-- C2 counterexample: `remove_dir_all(&path).ok()` discards the removal's
own failure.  When unpacking fails *and* the removal fails, `package` still
returns `MalformedArchive`, but the partially populated directory survives,
and a subsequent `resolve` for the same reference finds it on the fast path:
it returns the stale partial directory with the state untouched — no
download is attempted. -/
theorem malformed_archive_stale_dir_counterexample :
    (Compiler.package
        ⟨fun _ => Except.ok [1], fun _ => Except.ok [2], fun _ => Except.error "bad",
         fun _ => Except.error "busy"⟩
        "c" ⟨[], 0⟩ ⟨"preview", "foo", "1.0.0"⟩).1
      = Except.error (PackageError.malformedArchive "Failed to unpack package foo: bad")
    ∧ packagePath "c" ⟨"preview", "foo", "1.0.0"⟩
        ∈ (Compiler.package
            ⟨fun _ => Except.ok [1], fun _ => Except.ok [2], fun _ => Except.error "bad",
             fun _ => Except.error "busy"⟩
            "c" ⟨[], 0⟩ ⟨"preview", "foo", "1.0.0"⟩).2.dirs
    ∧ Compiler.package
          ⟨fun _ => Except.ok [1], fun _ => Except.ok [2], fun _ => Except.error "bad",
           fun _ => Except.error "busy"⟩
          "c"
          (Compiler.package
            ⟨fun _ => Except.ok [1], fun _ => Except.ok [2], fun _ => Except.error "bad",
             fun _ => Except.error "busy"⟩
            "c" ⟨[], 0⟩ ⟨"preview", "foo", "1.0.0"⟩).2
          ⟨"preview", "foo", "1.0.0"⟩
        = (Except.ok (packagePath "c" ⟨"preview", "foo", "1.0.0"⟩),
           (Compiler.package
            ⟨fun _ => Except.ok [1], fun _ => Except.ok [2], fun _ => Except.error "bad",
             fun _ => Except.error "busy"⟩
            "c" ⟨[], 0⟩ ⟨"preview", "foo", "1.0.0"⟩).2) :=
  ⟨rfl, by decide, rfl⟩

/-- C2 (amended): when `Compiler::package` fails with `MalformedArchive` (a
decompression or unpack failure), the removal of the partially created
directory is *attempted*; whenever that removal succeeds (and always for
decompression failures, where no directory was created yet), the target
directory is absent from the resulting state, so a subsequent `resolve` for
the same reference misses the fast path and attempts the download again
(its fetch counter increments).  If the removal itself fails — its result
is discarded by `.ok()` — the partial directory can survive instead. -/
theorem malformed_archive_removal_ok_leaves_no_dir (w : PkgWorld) (cache : String)
    (st st' : FsState) (p : PkgSpec) (m : String)
    (h : Compiler.package w cache st p
          = (Except.error (PackageError.malformedArchive m), st'))
    (hrm : w.removeDir (packagePath cache p) = Except.ok ()) :
    packagePath cache p ∉ st'.dirs
      ∧ (Compiler.package w cache st' p).2.fetches = st'.fetches + 1 := by
  have hmem : packagePath cache p ∉ st'.dirs := by
    by_cases hfast : packagePath cache p ∈ st.dirs
    · exfalso
      unfold Compiler.package at h
      simp only [if_pos hfast] at h
      injection h with h1 h2
      exact Except.noConfusion h1
    · unfold Compiler.package at h
      simp only [if_neg hfast] at h
      split at h
      · injection h with h1 h2
        simp at h1
      · split at h
        · injection h with h1 h2
          rw [← h2]
          exact hfast
        · split at h
          · injection h with h1 h2
            rw [← h2]
            simp [hrm, List.mem_filter]
          · injection h with h1 h2
            exact Except.noConfusion h1
  exact ⟨hmem, package_snd_fetches_of_not_mem w cache st' p hmem⟩

/-- C2 witness: a concrete failing unpack whose cleanup removal succeeds;
the directory is absent afterwards and the retry fetches again. -/
theorem malformed_archive_removal_ok_leaves_no_dir_witness :
    packagePath "c" ⟨"preview", "foo", "1.0.0"⟩
        ∉ (FsState.mk ([] : List String) 1).dirs
      ∧ (Compiler.package
            ⟨fun _ => Except.ok [1], fun _ => Except.ok [2], fun _ => Except.error "bad",
             fun _ => Except.ok ()⟩
            "c" ⟨[], 1⟩ ⟨"preview", "foo", "1.0.0"⟩).2.fetches
          = (FsState.mk ([] : List String) 1).fetches + 1 :=
  malformed_archive_removal_ok_leaves_no_dir
    ⟨fun _ => Except.ok [1], fun _ => Except.ok [2], fun _ => Except.error "bad",
     fun _ => Except.ok ()⟩
    "c" ⟨[], 0⟩ ⟨[], 1⟩ ⟨"preview", "foo", "1.0.0"⟩
    ("Failed to unpack package " ++ "foo" ++ ": " ++ "bad") rfl rfl

/-- C6 counterexample: with a network that fails, *each* of two `resolve`
calls for the same reference attempts a download (the fast path is never
reached because no directory was created), so "calling resolve twice issues
at most one network fetch" is false: two calls from a fresh state perform
two fetch attempts (and neither returns a directory path). -/
theorem resolve_twice_single_fetch_counterexample :
    ¬ ((Compiler.package
          ⟨fun _ => Except.error "down", fun _ => Except.ok [], fun _ => Except.ok (),
           fun _ => Except.ok ()⟩
          "c"
          (Compiler.package
            ⟨fun _ => Except.error "down", fun _ => Except.ok [], fun _ => Except.ok (),
           fun _ => Except.ok ()⟩
            "c" ⟨[], 0⟩ ⟨"preview", "foo", "1.0.0"⟩).2
          ⟨"preview", "foo", "1.0.0"⟩).2.fetches ≤ 1) := by
  have h : (Compiler.package
      ⟨fun _ => Except.error "down", fun _ => Except.ok [], fun _ => Except.ok (),
           fun _ => Except.ok ()⟩
      "c"
      (Compiler.package
        ⟨fun _ => Except.error "down", fun _ => Except.ok [], fun _ => Except.ok (),
           fun _ => Except.ok ()⟩
        "c" ⟨[], 0⟩ ⟨"preview", "foo", "1.0.0"⟩).2
      ⟨"preview", "foo", "1.0.0"⟩).2.fetches = 2 := rfl
  rw [h]
  decide

/-- C6 (amended): when the first `resolve` call *succeeds*, the second call
for the same reference returns the same directory path with the state
untouched (no network fetch, no side effect), the pair of calls performed at
most one fetch in total; and whenever the directory already exists,
resolution returns it immediately without touching any state. -/
theorem resolve_idempotent_after_success (w : PkgWorld) (cache : String)
    (st st' : FsState) (p : PkgSpec) (dir : String)
    (h : Compiler.package w cache st p = (Except.ok dir, st')) :
    Compiler.package w cache st' p = (Except.ok dir, st')
    ∧ st'.fetches ≤ st.fetches + 1
    ∧ (packagePath cache p ∈ st.dirs →
        Compiler.package w cache st p = (Except.ok (packagePath cache p), st)) := by
  refine ⟨?_, ?_, ?_⟩
  · by_cases hfast : packagePath cache p ∈ st.dirs
    · unfold Compiler.package at h
      simp only [if_pos hfast] at h
      injection h with h1 h2
      injection h1 with h1
      unfold Compiler.package
      rw [← h2]
      simp only [if_pos hfast]
      rw [h1]
    · unfold Compiler.package at h
      simp only [if_neg hfast] at h
      split at h
      · injection h with h1 h2
        exact Except.noConfusion h1
      · split at h
        · injection h with h1 h2
          exact Except.noConfusion h1
        · split at h
          · injection h with h1 h2
            exact Except.noConfusion h1
          · injection h with h1 h2
            injection h1 with h1
            unfold Compiler.package
            rw [← h2, ← h1]
            simp only
            rw [if_pos (List.mem_cons_self _ _)]
  · by_cases hfast : packagePath cache p ∈ st.dirs
    · unfold Compiler.package at h
      simp only [if_pos hfast] at h
      injection h with h1 h2
      rw [← h2]
      exact Nat.le_succ _
    · unfold Compiler.package at h
      simp only [if_neg hfast] at h
      split at h
      · injection h with h1 h2
        exact Except.noConfusion h1
      · split at h
        · injection h with h1 h2
          exact Except.noConfusion h1
        · split at h
          · injection h with h1 h2
            exact Except.noConfusion h1
          · injection h with h1 h2
            rw [← h2]
  · intro hm
    unfold Compiler.package
    simp only [if_pos hm]

/-- C6 witness: a successful first resolution; the second call returns the
same path without touching the state, and the fast path is side-effect-free. -/
theorem resolve_idempotent_after_success_witness :
    Compiler.package
        ⟨fun _ => Except.ok [1], fun _ => Except.ok [2], fun _ => Except.ok (),
     fun _ => Except.ok ()⟩
        "c" ⟨["c/preview/foo/1.0.0"], 1⟩ ⟨"preview", "foo", "1.0.0"⟩
      = (Except.ok "c/preview/foo/1.0.0", ⟨["c/preview/foo/1.0.0"], 1⟩)
    ∧ (FsState.mk ["c/preview/foo/1.0.0"] 1).fetches ≤ (FsState.mk [] 0).fetches + 1
    ∧ (packagePath "c" ⟨"preview", "foo", "1.0.0"⟩ ∈ (FsState.mk ([] : List String) 0).dirs →
        Compiler.package
            ⟨fun _ => Except.ok [1], fun _ => Except.ok [2], fun _ => Except.ok (),
     fun _ => Except.ok ()⟩
            "c" ⟨[], 0⟩ ⟨"preview", "foo", "1.0.0"⟩
          = (Except.ok (packagePath "c" ⟨"preview", "foo", "1.0.0"⟩), ⟨[], 0⟩)) :=
  resolve_idempotent_after_success
    ⟨fun _ => Except.ok [1], fun _ => Except.ok [2], fun _ => Except.ok (),
     fun _ => Except.ok ()⟩
    "c" ⟨[], 0⟩ ⟨["c/preview/foo/1.0.0"], 1⟩ ⟨"preview", "foo", "1.0.0"⟩
    "c/preview/foo/1.0.0" rfl

/-! ## File store (`src/compiler.rs`, lines 54-58 and 193-254)

`Compiler.files` is a `RwLock<HashMap<FileId, CachedFile>>`; `get_file`
returns cached bytes or loads a package-relative file (caching
`{bytes, source: None}`), `get_source` returns the cached parsed source or
decodes the bytes as UTF-8 (`FileError::InvalidUtf8` on failure), builds
`Source::new(id, contents)` and memoizes it into the existing entry via
`get_mut`.  The map is an association list (inserts prepend, updates rewrite
the visible entry); the filesystem read is an oracle and a ghost `reads`
counter counts `std::fs::read` calls.
-/

/-- `typst` `FileId`: an optional package plus a rooted virtual path. -/
structure FileId where
  pkg : Option PkgSpec
  vpath : String
deriving DecidableEq

/-- `typst` `Source`: the file id it is tagged with plus the decoded text
(a sequence of Unicode code points). -/
structure Source where
  id : FileId
  text : List Nat
deriving DecidableEq

/-- `CachedFile { bytes, source }`. -/
structure CachedFile where
  bytes : List Nat
  source : Option Source
deriving DecidableEq

/-- The `FileError` variants this module produces (`NotFound`,
`InvalidUtf8`, the `from_io` conversion, and a wrapped `PackageError`). -/
inductive FileError where
  | notFound (path : String)
  | invalidUtf8
  | ioError (msg : String)
  | packageError (e : PackageError)
deriving DecidableEq

/-- External collaborators of the file store: the package world, the
filesystem read, and `VirtualPath::resolve` (which returns `None` when the
virtual path escapes the package root). -/
structure FileWorld where
  pkg : PkgWorld
  readFile : String → Except String (List Nat)
  vresolve : String → String → Option String

/-- The mutable state of a `Compiler`: the file cache, the package-cache
filesystem state, and a ghost counter of filesystem reads. -/
structure CompilerState where
  files : List (FileId × CachedFile)
  fs : FsState
  reads : Nat
deriving DecidableEq

/-- `HashMap::get`: the visible (most recently inserted) entry for a key. -/
def lookupFile : List (FileId × CachedFile) → FileId → Option CachedFile
  | [], _ => none
  | (k, f) :: rest, id => if k = id then some f else lookupFile rest id

/-- `HashMap::get_mut` + `file.source = Some(src)`: update the visible entry
for `id`, leaving everything else alone. -/
def setSource : List (FileId × CachedFile) → FileId → Source → List (FileId × CachedFile)
  | [], _, _ => []
  | (k, f) :: rest, id, s =>
    if k = id then (k, { f with source := some s }) :: rest
    else (k, f) :: setSource rest id s

/-- Strict UTF-8 decoding of a byte sequence into code points, as
`std::str::from_utf8` validates it (rejecting overlong forms, surrogates and
out-of-range values). -/
def utf8Decode : List Nat → Option (List Nat)
  | [] => some []
  | b :: bs =>
    if b < 0x80 then (utf8Decode bs).map (b :: ·)
    else if 0xC2 ≤ b ∧ b ≤ 0xDF then
      match bs with
      | b1 :: bs' =>
        if 0x80 ≤ b1 ∧ b1 ≤ 0xBF then
          (utf8Decode bs').map (((b - 0xC0) * 0x40 + (b1 - 0x80)) :: ·)
        else none
      | [] => none
    else if 0xE0 ≤ b ∧ b ≤ 0xEF then
      match bs with
      | b1 :: b2 :: bs' =>
        if (if b = 0xE0 then 0xA0 ≤ b1 ∧ b1 ≤ 0xBF
            else if b = 0xED then 0x80 ≤ b1 ∧ b1 ≤ 0x9F
            else 0x80 ≤ b1 ∧ b1 ≤ 0xBF) ∧ 0x80 ≤ b2 ∧ b2 ≤ 0xBF then
          (utf8Decode bs').map
            (((b - 0xE0) * 0x1000 + (b1 - 0x80) * 0x40 + (b2 - 0x80)) :: ·)
        else none
      | _ => none
    else if 0xF0 ≤ b ∧ b ≤ 0xF4 then
      match bs with
      | b1 :: b2 :: b3 :: bs' =>
        if (if b = 0xF0 then 0x90 ≤ b1 ∧ b1 ≤ 0xBF
            else if b = 0xF4 then 0x80 ≤ b1 ∧ b1 ≤ 0x8F
            else 0x80 ≤ b1 ∧ b1 ≤ 0xBF) ∧ 0x80 ≤ b2 ∧ b2 ≤ 0xBF ∧ 0x80 ≤ b3 ∧ b3 ≤ 0xBF then
          (utf8Decode bs').map
            (((b - 0xF0) * 0x40000 + (b1 - 0x80) * 0x1000 + (b2 - 0x80) * 0x40
              + (b3 - 0x80)) :: ·)
        else none
      | _ => none
    else none

/-- `Compiler::get_file`: cached bytes if present; otherwise resolve the
package, resolve the virtual path, read the file, cache
`{bytes, source: None}`; `NotFound` for non-package identifiers. -/
def Compiler.get_file (w : FileWorld) (cache : String) (st : CompilerState)
    (id : FileId) : Except FileError (List Nat) × CompilerState :=
  match lookupFile st.files id with
  | some f => (Except.ok f.bytes, st)
  | none =>
    match id.pkg with
    | some p =>
      match Compiler.package w.pkg cache st.fs p with
      | (Except.error e, fs') =>
        (Except.error (FileError.packageError e), { st with fs := fs' })
      | (Except.ok dir, fs') =>
        match w.vresolve dir id.vpath with
        | none => (Except.error (FileError.notFound id.vpath), { st with fs := fs' })
        | some path =>
          match w.readFile path with
          | Except.error e =>
            (Except.error (FileError.ioError e),
             { st with fs := fs', reads := st.reads + 1 })
          | Except.ok contents =>
            (Except.ok contents,
             { st with
                fs := fs'
                reads := st.reads + 1
                files := (id, ⟨contents, none⟩) :: st.files })
    | none => (Except.error (FileError.notFound id.vpath), st)

/-- The slow path of `Compiler::get_source` (everything after the cache
check): `get_file`, strict UTF-8 decode (`InvalidUtf8` on failure), build
the source tagged with `id`, memoize it into the cache entry via
`get_mut`. -/
def getSourceSlow (w : FileWorld) (cache : String) (st : CompilerState)
    (id : FileId) : Except FileError Source × CompilerState :=
  match Compiler.get_file w cache st id with
  | (Except.error e, st') => (Except.error e, st')
  | (Except.ok bytes, st') =>
    match utf8Decode bytes with
    | none => (Except.error FileError.invalidUtf8, st')
    | some text =>
      (Except.ok ⟨id, text⟩,
       { st' with files := setSource st'.files id ⟨id, text⟩ })

/-- `Compiler::get_source`: the cached parsed source if present; otherwise
the slow path. -/
def Compiler.get_source (w : FileWorld) (cache : String) (st : CompilerState)
    (id : FileId) : Except FileError Source × CompilerState :=
  match lookupFile st.files id with
  | some ⟨_, some s⟩ => (Except.ok s, st)
  | _ => getSourceSlow w cache st id

theorem lookupFile_setSource_self {fs : List (FileId × CachedFile)} {id : FileId}
    {f : CachedFile} {s : Source} (h : lookupFile fs id = some f) :
    lookupFile (setSource fs id s) id = some { f with source := some s } := by
  induction fs with
  | nil => exact absurd h (by simp [lookupFile])
  | cons kf rest ih =>
    obtain ⟨k, g⟩ := kf
    by_cases hk : k = id
    · simp only [lookupFile, setSource, if_pos hk] at h ⊢
      injection h with h
      rw [h]
    · simp only [lookupFile, setSource, if_neg hk] at h ⊢
      exact ih h

theorem setSource_preserves_bytes {fs : List (FileId × CachedFile)}
    {k id : FileId} {s : Source} {f : CachedFile} (h : lookupFile fs k = some f) :
    ∃ f', lookupFile (setSource fs id s) k = some f' ∧ f'.bytes = f.bytes := by
  induction fs with
  | nil => exact absurd h (by simp [lookupFile])
  | cons kf rest ih =>
    obtain ⟨k', g⟩ := kf
    by_cases hid : k' = id
    · by_cases hkk : k' = k
      · simp only [lookupFile, setSource, if_pos hid, if_pos hkk] at h ⊢
        injection h with h
        exact ⟨{ g with source := some s }, rfl, by rw [h]⟩
      · simp only [lookupFile, setSource, if_pos hid, if_neg hkk] at h ⊢
        exact ⟨f, h, rfl⟩
    · by_cases hkk : k' = k
      · simp only [lookupFile, setSource, if_neg hid, if_pos hkk] at h ⊢
        exact ⟨f, h, rfl⟩
      · simp only [lookupFile, setSource, if_neg hid, if_neg hkk] at h ⊢
        exact ih h

theorem get_file_cached {w : FileWorld} {cache : String} {st : CompilerState}
    {id : FileId} {f : CachedFile} (h : lookupFile st.files id = some f) :
    Compiler.get_file w cache st id = (Except.ok f.bytes, st) := by
  unfold Compiler.get_file
  rw [h]

theorem bytes_cached_after_get_file {w : FileWorld} {cache : String}
    {st st₁ : CompilerState} {id : FileId} {b : List Nat}
    (h : Compiler.get_file w cache st id = (Except.ok b, st₁)) :
    ∃ f, lookupFile st₁.files id = some f ∧ f.bytes = b := by
  unfold Compiler.get_file at h
  cases hl : lookupFile st.files id with
  | some f =>
    rw [hl] at h
    injection h with h1 h2
    injection h1 with h1
    exact ⟨f, by rw [← h2]; exact hl, h1⟩
  | none =>
    simp only [hl] at h
    cases hp : id.pkg with
    | none =>
      simp only [hp] at h
      injection h with h1 h2
      exact Except.noConfusion h1
    | some p =>
      simp only [hp] at h
      split at h
      · injection h with h1 h2
        exact Except.noConfusion h1
      · split at h
        · injection h with h1 h2
          exact Except.noConfusion h1
        · split at h
          · injection h with h1 h2
            exact Except.noConfusion h1
          · injection h with h1 h2
            injection h1 with h1
            refine ⟨⟨b, none⟩, ?_, rfl⟩
            rw [← h2]
            simp [lookupFile, h1]

theorem get_source_fast {w : FileWorld} {cache : String} {st : CompilerState}
    {id : FileId} {fb : List Nat} {s : Source}
    (h : lookupFile st.files id = some ⟨fb, some s⟩) :
    Compiler.get_source w cache st id = (Except.ok s, st) := by
  unfold Compiler.get_source
  rw [h]

theorem getSourceSlow_ok {w : FileWorld} {cache : String}
    {st st₂ : CompilerState} {id : FileId} {s : Source}
    (h : getSourceSlow w cache st id = (Except.ok s, st₂)) :
    Compiler.get_source w cache st₂ id = (Except.ok s, st₂) := by
  unfold getSourceSlow at h
  rcases hgf : Compiler.get_file w cache st id with ⟨res, st'⟩
  cases res with
  | error e =>
    simp only [hgf] at h
    injection h with h1 h2
    exact Except.noConfusion h1
  | ok bytes =>
    cases hdec : utf8Decode bytes with
    | none =>
      simp only [hgf, hdec] at h
      injection h with h1 h2
      exact Except.noConfusion h1
    | some text =>
      simp only [hgf, hdec] at h
      injection h with h1 h2
      injection h1 with h1
      obtain ⟨f, hf, hfb⟩ := bytes_cached_after_get_file hgf
      have hlook := lookupFile_setSource_self (s := (⟨id, text⟩ : Source)) hf
      have hfast := @get_source_fast w cache
        { st' with files := setSource st'.files id (⟨id, text⟩ : Source) }
        id f.bytes (⟨id, text⟩ : Source) hlook
      rw [← h1, ← h2]
      exact hfast

theorem get_source_idem {w : FileWorld} {cache : String}
    {st st₂ : CompilerState} {id : FileId} {s : Source}
    (h : Compiler.get_source w cache st id = (Except.ok s, st₂)) :
    Compiler.get_source w cache st₂ id = (Except.ok s, st₂) := by
  unfold Compiler.get_source at h
  cases hl : lookupFile st.files id with
  | some f =>
    obtain ⟨fb, fsrc⟩ := f
    cases fsrc with
    | some s' =>
      simp only [hl] at h
      injection h with h1 h2
      injection h1 with h1
      rw [← h2]
      rw [h1] at hl
      exact get_source_fast hl
    | none =>
      simp only [hl] at h
      exact getSourceSlow_ok h
  | none =>
    simp only [hl] at h
    exact getSourceSlow_ok h

theorem cached_entry_after_get_file {w : FileWorld} {cache : String}
    {st st₁ : CompilerState} {id : FileId} {b : List Nat}
    (h : Compiler.get_file w cache st id = (Except.ok b, st₁))
    (hns : ∀ f, lookupFile st.files id = some f → f.source = none) :
    lookupFile st₁.files id = some ⟨b, none⟩ := by
  obtain ⟨f, hf, hfb⟩ := bytes_cached_after_get_file h
  obtain ⟨fb, fsrc⟩ := f
  have hfb' : fb = b := hfb
  have hsrc : fsrc = none := by
    by_cases hcached : lookupFile st.files id = none
    · unfold Compiler.get_file at h
      simp only [hcached] at h
      cases hp : id.pkg with
      | none =>
        simp only [hp] at h
        injection h with h1 h2
        exact Except.noConfusion h1
      | some p =>
        simp only [hp] at h
        split at h
        · injection h with h1 h2
          exact Except.noConfusion h1
        · split at h
          · injection h with h1 h2
            exact Except.noConfusion h1
          · split at h
            · injection h with h1 h2
              exact Except.noConfusion h1
            · injection h with h1 h2
              rw [← h2] at hf
              simp only [lookupFile, if_pos rfl] at hf
              injection hf with hf
              injection hf with hf1 hf2
              exact hf2.symm
    · rcases Option.ne_none_iff_exists.mp hcached with ⟨g, hg⟩
      have hgf := @get_file_cached w cache st id g hg.symm
      rw [h] at hgf
      injection hgf with h1 h2
      rw [h2] at hf
      exact hns ⟨fb, fsrc⟩ hf
  rw [hsrc] at hf
  rw [hfb'] at hf
  exact hf

/-- C4: for an identifier whose `get_file` succeeds with bytes `b` and whose
cache entry holds no parsed source yet, `get_source` fails with
`InvalidUtf8` exactly when `b` is not valid UTF-8; otherwise it returns the
source tagged with `id` whose text is the UTF-8 decoding of `b`, memoizes
that source into the cache entry, and an immediately repeated `get_source`
returns the identical result without further work. -/
theorem get_source_after_get_file (w : FileWorld) (cache : String)
    (st st₁ : CompilerState) (id : FileId) (b : List Nat)
    (hb : Compiler.get_file w cache st id = (Except.ok b, st₁))
    (hns : ∀ f, lookupFile st.files id = some f → f.source = none) :
    (utf8Decode b = none →
      Compiler.get_source w cache st id = (Except.error FileError.invalidUtf8, st₁))
    ∧ ∀ t, utf8Decode b = some t →
        Compiler.get_source w cache st id
          = (Except.ok ⟨id, t⟩, { st₁ with files := setSource st₁.files id ⟨id, t⟩ })
        ∧ lookupFile (setSource st₁.files id ⟨id, t⟩) id = some ⟨b, some ⟨id, t⟩⟩
        ∧ Compiler.get_source w cache
            { st₁ with files := setSource st₁.files id ⟨id, t⟩ } id
          = (Except.ok ⟨id, t⟩, { st₁ with files := setSource st₁.files id ⟨id, t⟩ }) := by
  have hslow : Compiler.get_source w cache st id = getSourceSlow w cache st id := by
    unfold Compiler.get_source
    cases hl : lookupFile st.files id with
    | none => simp only [hl]
    | some f =>
      obtain ⟨fb, fsrc⟩ := f
      cases fsrc with
      | some s' => exact absurd (hns ⟨fb, some s'⟩ hl) (by simp)
      | none => simp only [hl]
  have hentry : lookupFile st₁.files id = some ⟨b, none⟩ :=
    cached_entry_after_get_file hb hns
  constructor
  · intro hdec
    rw [hslow]
    unfold getSourceSlow
    simp only [hb, hdec]
  · intro t ht
    have hlook :
        lookupFile (setSource st₁.files id (⟨id, t⟩ : Source)) id
          = some ⟨b, some ⟨id, t⟩⟩ :=
      lookupFile_setSource_self hentry
    refine ⟨?_, hlook, ?_⟩
    · rw [hslow]
      unfold getSourceSlow
      simp only [hb, ht]
    · exact @get_source_fast w cache
        { st₁ with files := setSource st₁.files id (⟨id, t⟩ : Source) }
        id b (⟨id, t⟩ : Source) hlook

/-- A concrete file world: every package download/unpack succeeds, the file
read returns the two bytes `"hi"`, virtual paths resolve by joining. -/
def sampleWorld : FileWorld :=
  ⟨⟨fun _ => Except.ok [], fun _ => Except.ok [], fun _ => Except.ok (),
    fun _ => Except.ok ()⟩,
   fun _ => Except.ok [104, 105],
   fun d p => some (d ++ "/" ++ p)⟩

/-- A concrete package-relative file identifier. -/
def sampleId : FileId := ⟨some ⟨"preview", "foo", "1.0.0"⟩, "main.typ"⟩

/-- A fresh compiler state. -/
def sampleSt : CompilerState := ⟨[], ⟨[], 0⟩, 0⟩

/-- The state after `get_file sampleWorld "c" sampleSt sampleId`. -/
def sampleSt1 : CompilerState :=
  ⟨[(sampleId, ⟨[104, 105], none⟩)], ⟨["c/preview/foo/1.0.0"], 1⟩, 1⟩

/-- C4 witness: the concrete file read of `"hi"` is decoded, memoized and
repeatable. -/
theorem get_source_after_get_file_witness :
    Compiler.get_source sampleWorld "c" sampleSt sampleId
      = (Except.ok ⟨sampleId, [104, 105]⟩,
         { sampleSt1 with
            files := setSource sampleSt1.files sampleId ⟨sampleId, [104, 105]⟩ })
    ∧ lookupFile (setSource sampleSt1.files sampleId ⟨sampleId, [104, 105]⟩) sampleId
        = some ⟨[104, 105], some ⟨sampleId, [104, 105]⟩⟩
    ∧ Compiler.get_source sampleWorld "c"
        { sampleSt1 with
            files := setSource sampleSt1.files sampleId ⟨sampleId, [104, 105]⟩ } sampleId
      = (Except.ok ⟨sampleId, [104, 105]⟩,
         { sampleSt1 with
            files := setSource sampleSt1.files sampleId ⟨sampleId, [104, 105]⟩ }) :=
  (get_source_after_get_file sampleWorld "c" sampleSt sampleSt1 sampleId [104, 105]
    rfl (fun _ hf => Option.noConfusion hf)).2 [104, 105] rfl

/-- An operation against the shared compiler: one `get_file` or one
`get_source` call for some identifier. -/
inductive Op where
  | file (id : FileId)
  | src (id : FileId)

/-- The state after running one operation. -/
def runOp (w : FileWorld) (cache : String) (st : CompilerState) : Op → CompilerState
  | Op.file id => (Compiler.get_file w cache st id).2
  | Op.src id => (Compiler.get_source w cache st id).2

/-- The state after running a sequence of operations. -/
def runOps (w : FileWorld) (cache : String) (st : CompilerState)
    (ops : List Op) : CompilerState :=
  ops.foldl (runOp w cache) st

theorem get_file_state_cases (w : FileWorld) (cache : String)
    (st : CompilerState) (id' : FileId) :
    (Compiler.get_file w cache st id').2.files = st.files
    ∨ (lookupFile st.files id' = none ∧
        ∃ c fs' r, (Compiler.get_file w cache st id').2
          = ⟨(id', ⟨c, none⟩) :: st.files, fs', r⟩) := by
  unfold Compiler.get_file
  cases hl : lookupFile st.files id' with
  | some f => simp only [hl]; left; trivial
  | none =>
    simp only [hl]
    cases hp : id'.pkg with
    | none => simp only [hp]; left; trivial
    | some p =>
      simp only [hp]
      rcases hpk : Compiler.package w.pkg cache st.fs p with ⟨res, fs'⟩
      cases res with
      | error e => simp only [hpk]; left; trivial
      | ok dir =>
        simp only [hpk]
        cases hv : w.vresolve dir id'.vpath with
        | none => simp only [hv]; left; trivial
        | some path =>
          simp only [hv]
          cases hr : w.readFile path with
          | error e => simp only [hr]; left; trivial
          | ok c =>
            simp only [hr]
            exact Or.inr ⟨trivial, c, fs', st.reads + 1, rfl⟩

theorem cached_preserved_get_file {w : FileWorld} {cache : String}
    {st : CompilerState} {id id' : FileId} {f : CachedFile}
    (h : lookupFile st.files id = some f) :
    ∃ f', lookupFile (Compiler.get_file w cache st id').2.files id = some f'
      ∧ f'.bytes = f.bytes := by
  rcases get_file_state_cases w cache st id' with hc | ⟨hnone, c, fs', r, hc⟩
  · exact ⟨f, by rw [hc]; exact h, rfl⟩
  · have hne : ¬ (id' = id) := by
      intro he
      rw [he, h] at hnone
      exact Option.noConfusion hnone
    refine ⟨f, ?_, rfl⟩
    rw [hc]
    simp only [lookupFile, if_neg hne]
    exact h

theorem cached_preserved_slow {w : FileWorld} {cache : String}
    {st : CompilerState} {id id' : FileId} {f : CachedFile}
    (h : lookupFile st.files id = some f) :
    ∃ f', lookupFile (getSourceSlow w cache st id').2.files id = some f'
      ∧ f'.bytes = f.bytes := by
  unfold getSourceSlow
  rcases hgf : Compiler.get_file w cache st id' with ⟨res, st'⟩
  have hpres : ∃ f', lookupFile st'.files id = some f' ∧ f'.bytes = f.bytes := by
    have hx := @cached_preserved_get_file w cache st id id' f h
    rw [hgf] at hx
    exact hx
  obtain ⟨f', hf', hb'⟩ := hpres
  cases res with
  | error e => simp only [hgf]; exact ⟨f', hf', hb'⟩
  | ok bytes =>
    cases hdec : utf8Decode bytes with
    | none => simp only [hgf, hdec]; exact ⟨f', hf', hb'⟩
    | some t =>
      simp only [hgf, hdec]
      obtain ⟨f'', hf'', hb''⟩ :=
        @setSource_preserves_bytes st'.files id id' (⟨id', t⟩ : Source) f' hf'
      exact ⟨f'', hf'', hb''.trans hb'⟩

theorem cached_preserved_get_source {w : FileWorld} {cache : String}
    {st : CompilerState} {id id' : FileId} {f : CachedFile}
    (h : lookupFile st.files id = some f) :
    ∃ f', lookupFile (Compiler.get_source w cache st id').2.files id = some f'
      ∧ f'.bytes = f.bytes := by
  unfold Compiler.get_source
  cases hl : lookupFile st.files id' with
  | some g =>
    obtain ⟨gb, gsrc⟩ := g
    cases gsrc with
    | some s' => simp only [hl]; exact ⟨f, h, rfl⟩
    | none => simp only [hl]; exact cached_preserved_slow h
  | none => simp only [hl]; exact cached_preserved_slow h

theorem cached_bytes_preserved_runOps {w : FileWorld} {cache : String} :
    ∀ (ops : List Op) (st : CompilerState) (id : FileId) (f : CachedFile),
    lookupFile st.files id = some f →
    ∃ f', lookupFile (runOps w cache st ops).files id = some f'
      ∧ f'.bytes = f.bytes := by
  intro ops
  induction ops with
  | nil => exact fun st id f h => ⟨f, h, rfl⟩
  | cons op ops ih =>
    intro st id f h
    have hop : ∃ f', lookupFile (runOp w cache st op).files id = some f'
        ∧ f'.bytes = f.bytes := by
      cases op with
      | file id' => exact cached_preserved_get_file h
      | src id' => exact cached_preserved_get_source h
    obtain ⟨f', h', hb⟩ := hop
    obtain ⟨f'', h'', hb'⟩ := ih _ _ _ h'
    refine ⟨f'', ?_, hb'.trans hb⟩
    simpa [runOps, List.foldl_cons] using h''

/-- C9: the file cache never evicts or overwrites.  Once `get_file` has
returned bytes `b` for `id`, then after *any* sequence of further `get_file`
and `get_source` calls the next `get_file id` still returns exactly `b` and
leaves the state untouched — in particular the ghost filesystem-read counter
does not move, so nothing is re-read — and a repeated `get_source id` returns
a result structurally identical to the previous one. -/
theorem file_cache_never_evicts (w : FileWorld) (cache : String)
    (st st₁ : CompilerState) (id : FileId) (b : List Nat)
    (hb : Compiler.get_file w cache st id = (Except.ok b, st₁)) (ops : List Op) :
    Compiler.get_file w cache (runOps w cache st₁ ops) id
      = (Except.ok b, runOps w cache st₁ ops)
    ∧ ∀ s st₃,
        Compiler.get_source w cache (runOps w cache st₁ ops) id = (Except.ok s, st₃) →
        Compiler.get_source w cache st₃ id = (Except.ok s, st₃) := by
  obtain ⟨f, hf, hfb⟩ := bytes_cached_after_get_file hb
  obtain ⟨f', hf', hfb'⟩ := cached_bytes_preserved_runOps ops st₁ id f hf
  constructor
  · rw [get_file_cached hf', hfb', hfb]
  · intro s st₃ hs
    exact get_source_idem hs

/-- C9 witness: after a concrete successful `get_file` and an interleaved
`get_source` call, `get_file` still returns the same bytes with the state
untouched. -/
theorem file_cache_never_evicts_witness :
    Compiler.get_file sampleWorld "c"
        (runOps sampleWorld "c" sampleSt1 [Op.src sampleId]) sampleId
      = (Except.ok [104, 105], runOps sampleWorld "c" sampleSt1 [Op.src sampleId])
    ∧ ∀ s st₃,
        Compiler.get_source sampleWorld "c"
            (runOps sampleWorld "c" sampleSt1 [Op.src sampleId]) sampleId
          = (Except.ok s, st₃) →
        Compiler.get_source sampleWorld "c" st₃ sampleId = (Except.ok s, st₃) :=
  file_cache_never_evicts sampleWorld "c" sampleSt sampleSt1 sampleId [104, 105]
    rfl [Op.src sampleId]

/-! ## Diagnostic line lookup (`src/compiler.rs`, lines 308-318)

`WrapSource::lookup` feeds codespan-reporting: parsed source lines if
`get_source` succeeds, else `Lines::try_from(&bytes).expect("not valid
utf-8")` if `get_file` succeeds, else the main source's lines.  The
`.expect` is a panic; a panic is modelled as `none` in the first component.
Both cache calls thread the shared state (`&self` with interior
mutability). -/

/-- `typst` `Lines<String>`: a line index fully determined by the text it
was built from; the text is what matters here. -/
structure LinesM where
  text : List Nat
deriving DecidableEq

/-- `WrapSource::lookup`.  `Lines::try_from(&bytes)` fails exactly on
invalid UTF-8, and the Rust code unwraps it with `.expect(...)`: the `none`
result models that panic. -/
def WrapSource.lookup (w : FileWorld) (cache : String) (st : CompilerState)
    (mainSrc : Source) (id : FileId) : Option LinesM × CompilerState :=
  match Compiler.get_source w cache st id with
  | (Except.ok src, st') => (some ⟨src.text⟩, st')
  | (Except.error _, st') =>
    match Compiler.get_file w cache st' id with
    | (Except.ok bytes, st'') =>
      match utf8Decode bytes with
      | some t => (some ⟨t⟩, st'')
      | none => (none, st'')
    | (Except.error _, st'') => (some ⟨mainSrc.text⟩, st'')

/-- C10 counterexample: with `[0xFF]` (not valid UTF-8) cached for an
identifier, `get_source` fails with `InvalidUtf8`, `get_file` succeeds with
those bytes, and `lookup` hits the `.expect("not valid utf-8")` — it
panics (modelled as `none`) instead of returning lines. -/
theorem lookup_panics_counterexample :
    (WrapSource.lookup sampleWorld "c"
        ⟨[(⟨none, "bad.bin"⟩, ⟨[255], none⟩)], ⟨[], 0⟩, 0⟩
        ⟨⟨none, "main"⟩, []⟩ ⟨none, "bad.bin"⟩).1 = none := rfl

/-- C10 (amended): `WrapSource::lookup` returns the parsed source's lines
when `get_source` succeeds and falls back to the main source's lines when
`get_file` also fails, but when `get_source` fails while `get_file` yields
bytes it returns lines built from those bytes only if they are valid UTF-8 —
on invalid UTF-8 bytes it panics (the `none` outcome) rather than being
total. -/
theorem lookup_characterization (w : FileWorld) (cache : String)
    (st : CompilerState) (mainSrc : Source) (id : FileId) :
    (∀ src st', Compiler.get_source w cache st id = (Except.ok src, st') →
      WrapSource.lookup w cache st mainSrc id = (some ⟨src.text⟩, st'))
    ∧ (∀ e st' b st'', Compiler.get_source w cache st id = (Except.error e, st') →
        Compiler.get_file w cache st' id = (Except.ok b, st'') →
        ((utf8Decode b = none →
           WrapSource.lookup w cache st mainSrc id = (none, st''))
         ∧ ∀ t, utf8Decode b = some t →
             WrapSource.lookup w cache st mainSrc id = (some ⟨t⟩, st'')))
    ∧ (∀ e st' e' st'', Compiler.get_source w cache st id = (Except.error e, st') →
        Compiler.get_file w cache st' id = (Except.error e', st'') →
        WrapSource.lookup w cache st mainSrc id = (some ⟨mainSrc.text⟩, st'')) := by
  refine ⟨?_, ?_, ?_⟩
  · intro src st' h
    unfold WrapSource.lookup
    simp only [h]
  · intro e st' b st'' hs hf
    constructor
    · intro hdec
      unfold WrapSource.lookup
      simp only [hs, hf, hdec]
    · intro t hdec
      unfold WrapSource.lookup
      simp only [hs, hf, hdec]
  · intro e st' e' st'' hs hf
    unfold WrapSource.lookup
    simp only [hs, hf]

/-- C10 witness: a successfully parsed source makes `lookup` return its
lines, and a missing non-package file makes it fall back to the main
source's lines. -/
theorem lookup_characterization_witness :
    WrapSource.lookup sampleWorld "c"
        ⟨[(⟨none, "good.typ"⟩, ⟨[104], some ⟨⟨none, "good.typ"⟩, [104]⟩⟩)], ⟨[], 0⟩, 0⟩
        ⟨⟨none, "main"⟩, [109]⟩ ⟨none, "good.typ"⟩
      = (some ⟨[104]⟩,
         ⟨[(⟨none, "good.typ"⟩, ⟨[104], some ⟨⟨none, "good.typ"⟩, [104]⟩⟩)], ⟨[], 0⟩, 0⟩)
    ∧ WrapSource.lookup sampleWorld "c"
        ⟨[], ⟨[], 0⟩, 0⟩ ⟨⟨none, "main"⟩, [109]⟩ ⟨none, "missing.typ"⟩
      = (some ⟨[109]⟩, ⟨[], ⟨[], 0⟩, 0⟩) :=
  ⟨(lookup_characterization sampleWorld "c"
      ⟨[(⟨none, "good.typ"⟩, ⟨[104], some ⟨⟨none, "good.typ"⟩, [104]⟩⟩)], ⟨[], 0⟩, 0⟩
      ⟨⟨none, "main"⟩, [109]⟩ ⟨none, "good.typ"⟩).1
      ⟨⟨none, "good.typ"⟩, [104]⟩ _ rfl,
   (lookup_characterization sampleWorld "c" ⟨[], ⟨[], 0⟩, 0⟩
      ⟨⟨none, "main"⟩, [109]⟩ ⟨none, "missing.typ"⟩).2.2
      (FileError.notFound "missing.typ") ⟨[], ⟨[], 0⟩, 0⟩
      (FileError.notFound "missing.typ") ⟨[], ⟨[], 0⟩, 0⟩ rfl rfl⟩

/-! ## Diagnostic reporting (`src/compiler.rs`, lines 28-52 and 425-458)

`print_diagnostics` walks `warnings.iter().chain(errors)`, builds a
codespan diagnostic (severity, message, hints as notes, and the optional
label `Some(Label::primary(span.id()?, world.range(span)?))` collected with
`into_iter().collect()`), renders it with `term::emit_into_string` (an
oracle here) and logs it; a rendering failure maps to
`CompileError::Compilation("Failed to format diagnostic: …")`. -/

/-- `CompileError` from `src/compiler.rs`. -/
inductive CompileError where
  | compilation (msg : String)
  | lockPoisoned
deriving DecidableEq

/-- `typst::diag::Severity`. -/
inductive Severity where
  | error
  | warning
deriving DecidableEq

/-- A `typst` `Span` as the reporter sees it: `span.id()` may be `None`
(detached span). -/
structure DiagSpan where
  fid : Option FileId
deriving DecidableEq

/-- `typst::diag::SourceDiagnostic` (the fields the reporter reads). -/
structure SourceDiagnostic where
  severity : Severity
  message : String
  hints : List String
  span : DiagSpan
deriving DecidableEq

/-- A codespan primary label: resolved file and byte range. -/
structure DiagLabel where
  fid : FileId
  rangeStart : Nat
  rangeStop : Nat
deriving DecidableEq

/-- The codespan diagnostic being emitted. -/
structure Diag where
  isErr : Bool
  message : String
  notes : List String
  labels : List DiagLabel
deriving DecidableEq

/-- `fn label(world, span) -> Option<Label>`:
`Some(Label::primary(span.id()?, world.range(span)?))`; the range resolution
(`world.range`) is an oracle. -/
def label (range : DiagSpan → Option (Nat × Nat)) (sp : DiagSpan) : Option DiagLabel :=
  match sp.fid, range sp with
  | some f, some r => some ⟨f, r.1, r.2⟩
  | _, _ => none

/-- The diagnostic built for one `SourceDiagnostic`: severity, message,
`hint: `-prefixed notes, and the optional label collected into a list. -/
def mkDiag (range : DiagSpan → Option (Nat × Nat)) (d : SourceDiagnostic) : Diag :=
  ⟨(match d.severity with | Severity.error => true | Severity.warning => false),
   d.message,
   d.hints.map (fun s => "hint: " ++ s),
   (label range d.span).toList⟩

/-- The loop body of `print_diagnostics` over the chained list: emit each
diagnostic, failing fast with `Compilation("Failed to format diagnostic: …")`
when the renderer fails. -/
def printDiagList (emit : Diag → Except String String)
    (range : DiagSpan → Option (Nat × Nat)) :
    List SourceDiagnostic → Except CompileError Unit
  | [] => Except.ok ()
  | d :: ds =>
    match emit (mkDiag range d) with
    | Except.error e =>
      Except.error (CompileError.compilation ("Failed to format diagnostic: " ++ e))
    | Except.ok _ => printDiagList emit range ds

/-- `print_diagnostics`: warnings first, then errors, in emitted order. -/
def print_diagnostics (emit : Diag → Except String String)
    (range : DiagSpan → Option (Nat × Nat))
    (warnings errors : List SourceDiagnostic) : Except CompileError Unit :=
  printDiagList emit range (warnings ++ errors)

theorem printDiagList_ok (emit : Diag → Except String String)
    (range : DiagSpan → Option (Nat × Nat))
    (hemit : ∀ d, ∃ s, emit d = Except.ok s) :
    ∀ l : List SourceDiagnostic, printDiagList emit range l = Except.ok () := by
  intro l
  induction l with
  | nil => rfl
  | cons d ds ih =>
    obtain ⟨s, hs⟩ := hemit (mkDiag range d)
    simp only [printDiagList, hs]
    exact ih

/-- C5: a diagnostic whose span cannot be resolved — no file id, or no
resolvable range — is emitted with an empty label list (an unlocated
message); as long as the string renderer itself succeeds the whole report
succeeds, so an unresolvable span never fails the report. -/
theorem unresolvable_span_degrades (emit : Diag → Except String String)
    (range : DiagSpan → Option (Nat × Nat))
    (warnings errors : List SourceDiagnostic)
    (hemit : ∀ d, ∃ s, emit d = Except.ok s) :
    print_diagnostics emit range warnings errors = Except.ok ()
    ∧ ∀ d : SourceDiagnostic, d.span.fid = none ∨ range d.span = none →
        (mkDiag range d).labels = [] := by
  constructor
  · exact printDiagList_ok emit range hemit _
  · intro d hd
    rcases hd with h | h
    · simp [mkDiag, label, h]
    · cases hf : d.span.fid with
      | none => simp [mkDiag, label, hf]
      | some f => simp [mkDiag, label, hf, h]

/-- C5 witness: a warning with a file-less span and one with an unresolvable
range are both reported without a location and the report succeeds. -/
theorem unresolvable_span_degrades_witness :
    print_diagnostics (fun _ => Except.ok "") (fun _ => none)
        [⟨Severity.warning, "w", ["h"], ⟨none⟩⟩]
        [⟨Severity.error, "e", [], ⟨some ⟨none, "f.typ"⟩⟩⟩]
      = Except.ok ()
    ∧ (mkDiag (fun _ => none)
        ⟨Severity.error, "e", [], ⟨some ⟨none, "f.typ"⟩⟩⟩).labels = [] :=
  ⟨(unresolvable_span_degrades (fun _ => Except.ok "") (fun _ => none)
      [⟨Severity.warning, "w", ["h"], ⟨none⟩⟩]
      [⟨Severity.error, "e", [], ⟨some ⟨none, "f.typ"⟩⟩⟩]
      (fun _ => ⟨"", rfl⟩)).1,
   (unresolvable_span_degrades (fun _ => Except.ok "") (fun _ => none)
      [⟨Severity.warning, "w", ["h"], ⟨none⟩⟩]
      [⟨Severity.error, "e", [], ⟨some ⟨none, "f.typ"⟩⟩⟩]
      (fun _ => ⟨"", rfl⟩)).2
      ⟨Severity.error, "e", [], ⟨some ⟨none, "f.typ"⟩⟩⟩ (Or.inr rfl)⟩

end MdTypst
